import Mathlib

/-!
Verification of the error-reporting subsystem of cerberus (`cerberus/errors.py`):
error-code classification, `ValidationError`, the path-indexed `ErrorTree`, and the
`BasicErrorHandler` report builder.  The Python code is shallowly embedded: path
segments are strings or integers, dictionaries become ordered association structures
(Python dicts preserve insertion order), exceptions become an `Except` monad, and
the unbounded recursion over nested child errors is driven by an explicit fuel
argument (exhaustion throws `recursionError`, mirroring Python's `RecursionError`;
every claim either supplies enough fuel for its concrete input or conditions on the
call having succeeded).
-/

set_option autoImplicit false

namespace Cerberus

/-- A path segment of a `document_path` or `schema_path`: Python field names are
strings, sequence indexes are integers. -/
inductive Seg : Type where
  | s : String → Seg
  | n : Int → Seg
deriving DecidableEq, Repr

/-- The dynamically typed payloads (`constraint`, `value`, entries of `info`) that
reach the message formatter; only these shapes occur in the verified scenarios. -/
inductive PyVal : Type where
  | str : String → PyVal
  | int : Int → PyVal
  | none : PyVal
deriving DecidableEq, Repr

/-- Python exceptions that the embedded code can raise. -/
inductive PyExc : Type where
  | indexError
  | keyError
  | typeError
  | attributeError
  | recursionError
deriving DecidableEq, Repr

/-- `ErrorDefinition` from `errors.py`: a unique error `code` and the optional
`rule` string that can cause it. -/
structure ErrorDefinition : Type where
  code : Nat
  rule : Option String
deriving DecidableEq, Repr

/-- The module-level `ErrorDefinition` constants of `errors.py`, with the Python
variable name each is bound to.  `DOCUMENT_MISSING` (0x01) and `DOCUMENT_FORMAT`
(0x21) are created and then immediately rebound to plain strings in the source;
the `ErrorDefinition` objects still exist with their codes, so they are listed. -/
def errorRegistry : List (String × ErrorDefinition) :=
  [ ("CUSTOM", ⟨0x00, Option.none⟩),
    ("DOCUMENT_MISSING", ⟨0x01, Option.none⟩),
    ("REQUIRED_FIELD", ⟨0x02, some "required"⟩),
    ("UNKNOWN_FIELD", ⟨0x03, Option.none⟩),
    ("DEPENDENCIES_FIELD", ⟨0x04, some "dependencies"⟩),
    ("DEPENDENCIES_FIELD_VALUE", ⟨0x05, some "dependencies"⟩),
    ("EXCLUDES_FIELD", ⟨0x06, some "excludes"⟩),
    ("DOCUMENT_FORMAT", ⟨0x21, Option.none⟩),
    ("EMPTY", ⟨0x22, some "empty"⟩),
    ("NULLABLE", ⟨0x23, some "nullable"⟩),
    ("TYPE", ⟨0x24, some "type"⟩),
    ("ITEMS_LENGTH", ⟨0x26, some "items"⟩),
    ("MIN_LENGTH", ⟨0x27, some "minlength"⟩),
    ("MAX_LENGTH", ⟨0x28, some "maxlength"⟩),
    ("REGEX_MISMATCH", ⟨0x41, some "regex"⟩),
    ("MIN_VALUE", ⟨0x42, some "min"⟩),
    ("MAX_VALUE", ⟨0x43, some "max"⟩),
    ("UNALLOWED_VALUE", ⟨0x44, some "allowed"⟩),
    ("UNALLOWED_VALUES", ⟨0x45, some "allowed"⟩),
    ("FORBIDDEN_VALUE", ⟨0x46, some "forbidden"⟩),
    ("FORBIDDEN_VALUES", ⟨0x47, some "forbidden"⟩),
    ("MISSING_MEMBERS", ⟨0x48, some "contains"⟩),
    ("NORMALIZATION", ⟨0x60, Option.none⟩),
    ("COERCION_FAILED", ⟨0x61, some "coerce"⟩),
    ("RENAMING_FAILED", ⟨0x62, some "rename_handler"⟩),
    ("READONLY_FIELD", ⟨0x63, some "readonly"⟩),
    ("SETTING_DEFAULT_FAILED", ⟨0x64, some "default_setter"⟩),
    ("ERROR_GROUP", ⟨0x80, Option.none⟩),
    ("SCHEMA", ⟨0x81, some "schema"⟩),
    ("ITEMSRULES", ⟨0x82, some "itemsrules"⟩),
    ("KEYSRULES", ⟨0x83, some "keysrules"⟩),
    ("VALUESRULES", ⟨0x84, some "valuesrules"⟩),
    ("ITEMS", ⟨0x8F, some "items"⟩),
    ("LOGICAL", ⟨0x90, Option.none⟩),
    ("NONEOF", ⟨0x91, some "noneof"⟩),
    ("ONEOF", ⟨0x92, some "oneof"⟩),
    ("ANYOF", ⟨0x93, some "anyof"⟩),
    ("ALLOF", ⟨0x94, some "allof"⟩) ]

/-- `errors.ERROR_GROUP`. -/
def ERROR_GROUP : ErrorDefinition := ⟨0x80, Option.none⟩

/-- `errors.LOGICAL`. -/
def LOGICAL : ErrorDefinition := ⟨0x90, Option.none⟩

/-- `ValidationError` from `errors.py`.  `info` holds the positional formatting
arguments; for group errors the Python object stores the nested error list as
`info[0]`, which this embedding keeps in the separate `children` field (the
`child_errors` property below reproduces the `info[0]`-for-groups access). -/
inductive VError : Type where
  | mk (document_path : List Seg) (schema_path : List Seg) (code : Nat) (rule : String)
      (constraint : PyVal) (value : PyVal) (info : List PyVal) (children : List VError) : VError

/-- `ValidationError.document_path`. -/
def VError.document_path : VError → List Seg
  | .mk dp _ _ _ _ _ _ _ => dp

/-- `ValidationError.schema_path`. -/
def VError.schema_path : VError → List Seg
  | .mk _ sp _ _ _ _ _ _ => sp

/-- `ValidationError.code`. -/
def VError.code : VError → Nat
  | .mk _ _ c _ _ _ _ _ => c

/-- `ValidationError.rule`. -/
def VError.rule : VError → String
  | .mk _ _ _ r _ _ _ _ => r

/-- `ValidationError.constraint`. -/
def VError.constraint : VError → PyVal
  | .mk _ _ _ _ ct _ _ _ => ct

/-- `ValidationError.value`. -/
def VError.value : VError → PyVal
  | .mk _ _ _ _ _ v _ _ => v

/-- `ValidationError.info` (minus the nested error list carried for group errors). -/
def VError.info : VError → List PyVal
  | .mk _ _ _ _ _ _ i _ => i

/-- The nested errors stored in `info[0]` for group errors. -/
def VError.children : VError → List VError
  | .mk _ _ _ _ _ _ _ ch => ch

/-- The in-place assignment `error.document_path = ...` performed by the
handler's path-rewriting pass (on its deep copy). -/
def VError.setDp (dp : List Seg) : VError → VError
  | .mk _ sp c r ct v i ch => .mk dp sp c r ct v i ch

/-- Replacing the child-error list (the embedding's view of mutating the nested
errors reachable through `info[0]`). -/
def VError.setChildren (ch : List VError) : VError → VError
  | .mk dp sp c r ct v i _ => .mk dp sp c r ct v i ch

/-- `ValidationError.is_group_error`: `bool(self.code & ERROR_GROUP.code)`. -/
def isGroupErr (e : VError) : Bool :=
  e.code &&& ERROR_GROUP.code != 0

/-- `ValidationError.is_logic_error`: `bool(self.code & LOGICAL.code - ERROR_GROUP.code)`
(Python precedence: the subtraction binds tighter than `&`). -/
def isLogicErr (e : VError) : Bool :=
  e.code &&& (LOGICAL.code - ERROR_GROUP.code) != 0

/-- `ValidationError.field`: the last `document_path` segment, or `None`. -/
def errField (e : VError) : Option Seg :=
  e.document_path.getLast?

/-- `ValidationError.child_errors`: `info[0]` for group errors, else `None`. -/
def childErrors (e : VError) : Option (List VError) :=
  if isGroupErr e then some e.children else Option.none

/-- The child list of a group error (callers only dereference `child_errors`
after an `is_group_error` check). -/
def childList (e : VError) : List VError :=
  (childErrors e).getD []

/-- `defaultdict` bucket update used by `definitions_errors`: `result[i].append(error)`
(first occurrence of a key appends a new bucket at the end, preserving Python's
dict insertion order). -/
def bucketAdd (k : Seg) (v : VError) : List (Seg × List VError) → List (Seg × List VError)
  | [] => [(k, [v])]
  | (k2, vs) :: rest =>
      if k2 = k then (k2, vs ++ [v]) :: rest else (k2, vs) :: bucketAdd k v rest

/-- `ValidationError.definitions_errors`: buckets the child errors of a logic error
by the `schema_path` segment just after the parent's `schema_path`.  For a
non-logic error the Python property returns `None` and every caller immediately
iterates the result, raising `AttributeError`; dereferencing `child_errors` of a
non-group error likewise fails (`TypeError` iterating `None`); a child whose
`schema_path` is too short raises `IndexError`. -/
def definitionsErrors (e : VError) : Except PyExc (List (Seg × List VError)) := do
  if !isLogicErr e then throw .attributeError
  let ch ← match childErrors e with
    | some l => pure l
    | Option.none => throw .typeError
  ch.foldlM (fun bs c =>
    match c.schema_path[e.schema_path.length]? with
    | some i => pure (bucketAdd i c bs)
    | Option.none => throw .indexError) []

/-- Python `hash(ValidationError)`:
`hash(self.document_path) ^ hash(self.schema_path) ^ hash(self.code)`.
The built-in tuple/int hashes live outside the source, so the combinator is
stated for an arbitrary path hash `hp` and int hash `hi`. -/
def vhash (hp : List Seg → Nat) (hi : Nat → Nat) (e : VError) : Nat :=
  hp e.document_path ^^^ hp e.schema_path ^^^ hi e.code

/-- Python `ValidationError.__eq__`: `hash(self) == hash(other)`. -/
def veq (hp : List Seg → Nat) (hi : Nat → Nat) (e1 e2 : VError) : Prop :=
  vhash hp hi e1 = vhash hp hi e2

/-- One piece of a `str.format` template from `BasicErrorHandler.messages`: literal
text, a positional placeholder, or one of the named placeholders `constraint`,
`field`, `value`. -/
inductive TPart : Type where
  | lit : String → TPart
  | pos : Nat → TPart
  | constraintP : TPart
  | fieldP : TPart
  | valueP : TPart
deriving DecidableEq, Repr

/-- `BasicErrorHandler.messages`, each template parsed into its placeholder
structure (`"must be of {constraint} type"` becomes
`[lit "must be of ", constraintP, lit " type"]`, and so on). -/
def msgCatalog : List (Nat × List TPart) :=
  [ (0x00, [.pos 0]),
    (0x01, [.lit "document is missing"]),
    (0x02, [.lit "required field"]),
    (0x03, [.lit "unknown field"]),
    (0x04, [.lit "field '", .pos 0, .lit "' is required"]),
    (0x05, [.lit "depends on these values: ", .constraintP]),
    (0x06, [.pos 0, .lit " must not be present with '", .fieldP, .lit "'"]),
    (0x21, [.lit "'", .pos 0, .lit "' is not a document, must be a dict"]),
    (0x22, [.lit "empty values not allowed"]),
    (0x23, [.lit "null value not allowed"]),
    (0x24, [.lit "must be of ", .constraintP, .lit " type"]),
    (0x26, [.lit "length of list should be ", .constraintP, .lit ", it is ", .pos 0]),
    (0x27, [.lit "min length is ", .constraintP]),
    (0x28, [.lit "max length is ", .constraintP]),
    (0x41, [.lit "value does not match regex '", .constraintP, .lit "'"]),
    (0x42, [.lit "min value is ", .constraintP]),
    (0x43, [.lit "max value is ", .constraintP]),
    (0x44, [.lit "unallowed value ", .valueP]),
    (0x45, [.lit "unallowed values ", .pos 0]),
    (0x46, [.lit "unallowed value ", .valueP]),
    (0x47, [.lit "unallowed values ", .pos 0]),
    (0x48, [.lit "missing members ", .pos 0]),
    (0x61, [.lit "field '", .fieldP, .lit "' cannot be coerced: ", .pos 0]),
    (0x62, [.lit "field '", .fieldP, .lit "' cannot be renamed: ", .pos 0]),
    (0x63, [.lit "field is read-only"]),
    (0x64, [.lit "default value for '", .fieldP, .lit "' cannot be set: ", .pos 0]),
    (0x81, [.lit "mapping doesn't validate subschema: ", .pos 0]),
    (0x82, [.lit "one or more sequence-items don't validate: ", .pos 0]),
    (0x83, [.lit "one or more keys of a mapping  don't validate: ", .pos 0]),
    (0x84, [.lit "one or more values in a mapping don't validate: ", .pos 0]),
    (0x85, [.lit "one or more sequence-items don't validate: ", .pos 0]),
    (0x91, [.lit "one or more definitions validate"]),
    (0x92, [.lit "none or more than one rule validate"]),
    (0x93, [.lit "no definitions validate"]),
    (0x94, [.lit "one or more definitions don't validate"]) ]

/-- Python dict key lookup in the message catalog. -/
def lookupCode (c : Nat) : List (Nat × List TPart) → Option (List TPart)
  | [] => Option.none
  | (k, v) :: rest => if k = c then some v else lookupCode c rest

/-- How `str.format` renders the payloads that occur here (strings verbatim,
integers in decimal, `None` as the text `None`). -/
def renderVal : PyVal → String
  | .str s => s
  | .int i => toString i
  | .none => "None"

/-- Rendering of the `field` keyword argument (`error.field`, possibly `None`). -/
def fieldStr : Option Seg → String
  | Option.none => "None"
  | some (.s s) => s
  | some (.n i) => toString i

/-- `'%s' % segment` for a path segment. -/
def segStr : Seg → String
  | .s s => s
  | .n i => toString i

/-- Substitution of a single template part.  A positional placeholder with no
matching `info` entry raises `IndexError`, as `str.format` does. -/
def renderPart (info : List PyVal) (ct : PyVal) (field : Option Seg) (v : PyVal) :
    TPart → Except PyExc String
  | .lit s => pure s
  | .pos k =>
      match info[k]? with
      | some x => pure (renderVal x)
      | Option.none => throw .indexError
  | .constraintP => pure (renderVal ct)
  | .fieldP => pure (fieldStr field)
  | .valueP => pure (renderVal v)

/-- `BasicErrorHandler._format_message`:
`self.messages[error.code].format(*error.info, constraint=..., field=field, value=...)`.
A code absent from the catalog raises `KeyError`. -/
def formatMessage (field : Option Seg) (e : VError) : Except PyExc String :=
  match lookupCode e.code msgCatalog with
  | Option.none => throw .keyError
  | some parts => do
      let ss ← parts.mapM (renderPart e.info e.constraint field e.value)
      pure (String.join ss)

/-- Python slicing `l[k:]` for a possibly negative start index. -/
def pySliceFrom {α : Type} (k : Int) (l : List α) : List α :=
  if 0 ≤ k then l.drop k.toNat else l.drop (l.length - (-k).toNat)

/-- `BasicErrorHandler._rewrite_group_error_path`: each child's document path
beyond `child_start` is re-rooted under the parent's document path, then the
child is rewritten recursively at the same offset.  `recur` is
`_rewrite_error_path` at the remaining recursion budget. -/
def rewriteGroupPathBody (recur : Nat → VError → Except PyExc VError) (off : Nat)
    (e : VError) : Except PyExc VError := do
  let childStart : Int := (e.document_path.length : Int) - (off : Int)
  let ch ← match childErrors e with
    | some l => pure l
    | Option.none => throw .typeError
  let ch2 ← ch.mapM (fun c =>
    recur off (c.setDp (e.document_path ++ pySliceFrom childStart c.document_path)))
  pure (e.setChildren ch2)

/-- `BasicErrorHandler._rewrite_logic_error_path`: `definitions_errors` is
evaluated first (so an ill-formed child raises before any rewriting, as in the
source); the source then walks its buckets, mutating each child once — this
embedding performs the identical per-child update in child-list order, which
yields the same rewritten children because each child lies in exactly one
bucket. -/
def rewriteLogicPathBody (recur : Nat → VError → Except PyExc VError) (off : Nat)
    (e : VError) : Except PyExc VError := do
  let childStart : Int := (e.document_path.length : Int) - (off : Int)
  let _ ← definitionsErrors e
  let ch ← match childErrors e with
    | some l => pure l
    | Option.none => throw .typeError
  let ch2 ← ch.mapM (fun c =>
    match c.schema_path[e.schema_path.length]? with
    | some i =>
        recur (off + 1) (c.setDp
          (e.document_path ++ [Seg.s (e.rule ++ " definition " ++ segStr i)]
            ++ pySliceFrom childStart c.document_path))
    | Option.none => throw .indexError)
  pure (e.setChildren ch2)

/-- `BasicErrorHandler._rewrite_error_path`: dispatch on the error's
classification; plain errors are left untouched. -/
def rewriteErrorPath : Nat → Nat → VError → Except PyExc VError
  | 0, _, _ => throw .recursionError
  | fuel + 1, off, e =>
      if isLogicErr e then rewriteLogicPathBody (rewriteErrorPath fuel) off e
      else if isGroupErr e then rewriteGroupPathBody (rewriteErrorPath fuel) off e
      else pure e

/-- The handler's working report tree, `BasicErrorHandler.tree`: an
insertion-ordered mapping from a field segment to the list
`[message, ..., subtree]` whose final element is the child mapping. -/
inductive RTree : Type where
  | nil
  | cons (seg : Seg) (msgs : List String) (sub : RTree) (rest : RTree)
deriving DecidableEq, Repr

/-- Lookup of a field's `[messages, subtree]` entry in the working tree. -/
def getEntry (f : Seg) : RTree → Option (List String × RTree)
  | .nil => Option.none
  | .cons g m s r => if g = f then some (m, s) else getEntry f r

/-- The length-1 branch of `_insert_error`: pop the trailing subtree, append the
message, push the subtree back — i.e. append the message keeping the subtree;
a missing field becomes the fresh entry `[node, {}]` at the end of the dict. -/
def insertMsg1 (f : Seg) (msg : String) : RTree → RTree
  | .nil => .cons f [msg] .nil .nil
  | .cons g m s r =>
      if g = f then .cons g (m ++ [msg]) s r else .cons g m s (insertMsg1 f msg r)

/-- The deeper-path branch of `_insert_error`: replace the field's subtree (a
missing field is first created as `[{}]` at the end of the dict). -/
def setEntrySub (f : Seg) (sub2 : RTree) : RTree → RTree
  | .nil => .cons f [] sub2 .nil
  | .cons g m s r =>
      if g = f then .cons g m sub2 r else .cons g m s (setEntrySub f sub2 r)

/-- `BasicErrorHandler._insert_error(path, node)`: `path[0]` of an empty path
raises `IndexError`; a single-segment path appends the message at that field; a
longer path recurses into the field's subtree (the source builds a scratch
handler over a shallow copy of the subtree and merges the result back, which has
exactly this effect on the tree value). -/
def insertErr : List Seg → String → RTree → Except PyExc RTree
  | [], _, _ => throw .indexError
  | [f], msg, t => pure (insertMsg1 f msg t)
  | f :: f2 :: rest, msg, t => do
      let sub ← insertErr (f2 :: rest) msg (((getEntry f t).map Prod.snd).getD .nil)
      pure (setEntrySub f sub t)

/-- `BasicErrorHandler._insert_group_error`: every child is dispatched by its
classification; the group error's own message is never formatted or inserted.
`recur` handles nested group/logic children. -/
def insertGroupBody (recur : RTree → VError → Except PyExc RTree) (t : RTree)
    (e : VError) : Except PyExc RTree := do
  let ch ← match childErrors e with
    | some l => pure l
    | Option.none => throw .typeError
  ch.foldlM (fun acc c =>
    if isLogicErr c then recur acc c
    else if isGroupErr c then recur acc c
    else do
      let m ← formatMessage (errField c) c
      insertErr c.document_path m acc) t

/-- `BasicErrorHandler._insert_logic_error`: the logic error's own message is
inserted at its document path, then every bucketed child is dispatched; plain
children are formatted with the parent's `field`. -/
def insertLogicBody (recur : RTree → VError → Except PyExc RTree) (t : RTree)
    (e : VError) : Except PyExc RTree := do
  let field := errField e
  let m ← formatMessage field e
  let t2 ← insertErr e.document_path m t
  let buckets ← definitionsErrors e
  buckets.foldlM (fun acc b =>
    b.2.foldlM (fun acc2 c =>
      if isLogicErr c then recur acc2 c
      else if isGroupErr c then recur acc2 c
      else do
        let m2 ← formatMessage field c
        insertErr c.document_path m2 acc2) acc) t2

/-- The mutual recursion between `_insert_logic_error` and
`_insert_group_error`, tied through the fuel budget. -/
def insertGL : Nat → RTree → VError → Except PyExc RTree
  | 0, _, _ => throw .recursionError
  | fuel + 1, t, e =>
      if isLogicErr e then insertLogicBody (insertGL fuel) t e
      else insertGroupBody (insertGL fuel) t e

/-- `BasicErrorHandler.add`: deep-copy (identity on values here; the heap model
below accounts for the mutation aspect), rewrite the copy's paths, then dispatch
on its classification; a plain error with an unknown code is skipped. -/
def addError (fuel : Nat) (t : RTree) (e : VError) : Except PyExc RTree := do
  let e2 ← rewriteErrorPath fuel 0 e
  if isLogicErr e2 then insertLogicBody (insertGL fuel) t e2
  else if isGroupErr e2 then insertGroupBody (insertGL fuel) t e2
  else if (lookupCode e2.code msgCatalog).isSome then do
    let m ← formatMessage (errField e2) e2
    insertErr e2.document_path m t
  else pure t

/-- The pruned report produced by `pretty_tree`: an entry keeps its subtree only
when that subtree is nonempty. -/
inductive PTree : Type where
  | nil
  | consLeaf (seg : Seg) (msgs : List String) (rest : PTree)
  | consNode (seg : Seg) (msgs : List String) (sub : PTree) (rest : PTree)
deriving DecidableEq, Repr

/-- `_purge_empty_dicts` applied over a deep copy of the tree (`pretty_tree`):
an empty trailing subtree is popped, a nonempty one is purged recursively. -/
def purge : RTree → PTree
  | .nil => .nil
  | .cons f msgs .nil rest => .consLeaf f msgs (purge rest)
  | .cons f msgs sub rest => .consNode f msgs (purge sub) (purge rest)

/-- `BasicErrorHandler.__call__(errors)`: `clear` resets the working tree to
empty, `extend` adds every error in order, and the pruned `pretty_tree` is
returned.  `t` is the handler's pre-call working tree, discarded by `clear`. -/
def handlerCall (fuel : Nat) (_t : RTree) (errors : List VError) : Except PyExc PTree := do
  let t2 ← List.foldlM (addError fuel) RTree.nil errors
  pure (purge t2)

/-- The message list that the working tree holds at a given path. -/
def msgsAt : List Seg → RTree → List String
  | [], _ => []
  | [f], t => ((getEntry f t).map Prod.fst).getD []
  | f :: f2 :: rest, t =>
      match getEntry f t with
      | some (_, sub) => msgsAt (f2 :: rest) sub
      | Option.none => []

/-- Modelled from the spec: `compare_paths_lt` lives in `cerberus/utils.py`, which
is not part of the provided source; per the spec, mixed string/integer segments
are ordered by segment kind and then by value. -/
def segLt (a b : Seg) : Bool :=
  match a, b with
  | .n i, .n j => decide (i < j)
  | .s x, .s y => decide (x < y)
  | .n _, .s _ => true
  | .s _, .n _ => false

/-- Modelled from the spec: lexicographic path comparison built on [[segLt]]. -/
def pathLt : List Seg → List Seg → Bool
  | [], [] => false
  | [], _ :: _ => true
  | _ :: _, [] => false
  | a :: as2, b :: bs =>
      if a = b then pathLt as2 bs else segLt a b

/-- `ValidationError.__lt__`: document paths first, schema paths as tie-break. -/
def errLt (a b : VError) : Bool :=
  if a.document_path ≠ b.document_path then pathLt a.document_path b.document_path
  else pathLt a.schema_path b.schema_path

/-- Stable insertion of one error into a sorted run (the comparison Python's
`list.sort` makes through `__lt__`). -/
def insErrSorted (e : VError) : List VError → List VError
  | [] => [e]
  | x :: xs => if errLt e x then e :: x :: xs else x :: insErrSorted e xs

/-- `errors.sort()` as insertion sort. -/
def sortErrs : List VError → List VError
  | [] => []
  | x :: xs => insErrSorted x (sortErrs xs)

/-- A node of `ErrorTree`/`ErrorTreeNode`: the errors terminating exactly here
plus the insertion-ordered `descendants` mapping. -/
inductive ETree : Type where
  | node : List VError → List (Seg × ETree) → ETree

/-- The node's local `errors` list. -/
def etErrors : ETree → List VError
  | .node es _ => es

/-- The node's `descendants` mapping. -/
def etDesc : ETree → List (Seg × ETree)
  | .node _ d => d

/-- `descendants.get(key)`. -/
def descGet (k : Seg) : List (Seg × ETree) → Option ETree
  | [] => Option.none
  | (k2, t) :: rest => if k2 = k then some t else descGet k rest

/-- `self[key] = node`: replace the key's node, or append the new key at the end
of the dict. -/
def descSet (k : Seg) (v : ETree) : List (Seg × ETree) → List (Seg × ETree)
  | [] => [(k, v)]
  | (k2, t) :: rest =>
      if k2 = k then (k2, v) :: rest else (k2, t) :: descSet k v rest

/-- `tree_type` selection in `_path_of_`: `document_path` for a
`DocumentErrorTree`, `schema_path` for a `SchemaErrorTree`. -/
def pathOfSel (schemaTree : Bool) (e : VError) : List Seg :=
  if schemaTree then e.schema_path else e.document_path

/-- `ErrorTreeNode.add` along the error's remaining path suffix, minus the group
flattening (which [[treeAddE]] performs on the whole-tree value): walk to the
node addressed by the path, creating missing descendants, and append the error
to that node's sorted error list. -/
def nodeInsert (e : VError) : List Seg → ETree → ETree
  | [], t => t
  | [k], .node es d =>
      let child := (descGet k d).getD (.node [] [])
      .node es (descSet k (ETree.node (sortErrs (etErrors child ++ [e])) (etDesc child)) d)
  | k :: k2 :: rest, .node es d =>
      let child := (descGet k d).getD (.node [] [])
      .node es (descSet k (nodeInsert e (k2 :: rest) child) d)

/-- `ErrorTree.add`: an error with an empty path joins the root's own error list
(with no group flattening); otherwise it is inserted at the node addressed by
its path and, if it `is_group_error`, every `child_errors` entry is added to the
tree root in turn. -/
def treeAddE (schemaTree : Bool) : Nat → ETree → VError → Except PyExc ETree
  | 0, _, _ => throw .recursionError
  | fuel + 1, t, e =>
      if pathOfSel schemaTree e = [] then
        pure (ETree.node (sortErrs (etErrors t ++ [e])) (etDesc t))
      else
        let t1 := nodeInsert e (pathOfSel schemaTree e) t
        if isGroupErr e then (childList e).foldlM (treeAddE schemaTree fuel) t1
        else pure t1

/-- `ErrorTree.fetch_node_from`: walk the path through `descendants`, `None` the
moment a segment is missing. -/
def fetchNode : List Seg → ETree → Option ETree
  | [], t => some t
  | k :: rest, t =>
      match descGet k (etDesc t) with
      | some c => fetchNode rest c
      | Option.none => Option.none

/-- `ErrorTree.fetch_errors_from`: the node's errors, or an empty list. -/
def fetchErrorsFrom (p : List Seg) (t : ETree) : List VError :=
  match fetchNode p t with
  | some nd => etErrors nd
  | Option.none => []

/-- The heap view of a `ValidationError` object used to verify the no-mutation
contract of `add`: same fields, with the nested errors of `info[0]` held as heap
references. -/
structure ErrObj : Type where
  dp : List Seg
  sp : List Seg
  code : Nat
  rule : String
  constraint : PyVal
  value : PyVal
  info : List PyVal
  kids : List Nat
deriving DecidableEq, Repr

/-- Placeholder object allocated when copying a dangling reference (unreachable
for well-formed heaps; keeps the copy total). -/
def defaultErrObj : ErrObj :=
  ⟨[], [], 0, "", PyVal.none, PyVal.none, [], []⟩

/-- The assignment `error.document_path = ...` on a heap object. -/
def setObjDp (o : ErrObj) (dp : List Seg) : ErrObj :=
  ⟨dp, o.sp, o.code, o.rule, o.constraint, o.value, o.info, o.kids⟩

/-- Rebinding an object's child references (used by the copy). -/
def setObjKids (o : ErrObj) (ks : List Nat) : ErrObj :=
  ⟨o.dp, o.sp, o.code, o.rule, o.constraint, o.value, o.info, ks⟩

/-- The child loop of the deep copy: copy each child in turn through `recur`,
threading the growing heap and collecting the fresh references. -/
def copyKidsFold (recur : List ErrObj → Nat → List ErrObj × Nat)
    (st : List ErrObj × List Nat) (ks : List Nat) : List ErrObj × List Nat :=
  ks.foldl (fun acc k =>
    let p := recur acc.1 k
    (p.1, acc.2 ++ [p.2])) st

/-- `copy.deepcopy` of an error object graph: children are copied recursively,
then a copy of the object itself (pointing at the fresh children) is appended;
the heap only ever grows, and every appended object references only appended
cells. -/
def deepcopyE : Nat → List ErrObj → Nat → List ErrObj × Nat
  | 0, h, _ => (h ++ [defaultErrObj], h.length)
  | fuel + 1, h, r =>
    match h[r]? with
    | Option.none => (h ++ [defaultErrObj], h.length)
    | some o =>
        let acc := copyKidsFold (deepcopyE fuel) (h, []) o.kids
        (acc.1 ++ [setObjKids o acc.2], acc.1.length)

/-- The upfront evaluation of `definitions_errors` inside
`_rewrite_logic_error_path`: scan the children's bucket indexes before any
mutation, reporting the exception the source would raise. -/
def checkLogicIdx (h : List ErrObj) (n : Nat) : List Nat → Option PyExc
  | [] => Option.none
  | k :: ks =>
      match h[k]? with
      | Option.none => some PyExc.attributeError
      | some ko =>
          match ko.sp[n]? with
          | some _ => checkLogicIdx h n ks
          | Option.none => some PyExc.indexError

/-- The child loop shared by the two path-rewriting passes on the heap: set each
child's new document path (computed by `mkDp` from the child's current state),
then rewrite that child recursively through `recur`. -/
def rewriteKidsH (recur : List ErrObj → Nat → List ErrObj × Option PyExc)
    (mkDp : ErrObj → List Seg) : List ErrObj → List Nat → List ErrObj × Option PyExc
  | h, [] => (h, Option.none)
  | h, k :: ks =>
      match h[k]? with
      | Option.none => (h, some PyExc.attributeError)
      | some ko =>
          let h1 := h.set k (setObjDp ko (mkDp ko))
          match recur h1 k with
          | (h2, some ex) => (h2, some ex)
          | (h2, Option.none) => rewriteKidsH recur mkDp h2 ks

/-- `_rewrite_error_path` on the heap (the pass `add` runs on its deep copy):
logic errors extend each child's path with the synthetic
`"<rule> definition <i>"` segment and recurse at `offset + 1`; group errors
re-root each child at the same offset; plain errors mutate nothing. -/
def rewriteErrH : Nat → Nat → List ErrObj → Nat → List ErrObj × Option PyExc
  | 0, _, h, _ => (h, some PyExc.recursionError)
  | fuel + 1, off, h, r =>
      match h[r]? with
      | Option.none => (h, some PyExc.attributeError)
      | some o =>
          if o.code &&& (LOGICAL.code - ERROR_GROUP.code) != 0 then
            match checkLogicIdx h o.sp.length o.kids with
            | some ex => (h, some ex)
            | Option.none =>
                rewriteKidsH (fun hh k => rewriteErrH fuel (off + 1) hh k)
                  (fun ko =>
                    o.dp ++ [Seg.s (o.rule ++ " definition "
                        ++ segStr ((ko.sp[o.sp.length]?).getD (Seg.n 0)))]
                      ++ pySliceFrom ((o.dp.length : Int) - (off : Int)) ko.dp)
                  h o.kids
          else if o.code &&& ERROR_GROUP.code != 0 then
            rewriteKidsH (fun hh k => rewriteErrH fuel off hh k)
              (fun ko => o.dp ++ pySliceFrom ((o.dp.length : Int) - (off : Int)) ko.dp)
              h o.kids
          else (h, Option.none)

/-- The complete effect of `BasicErrorHandler.add` on the error heap: deep-copy
the incoming error, then run the path-rewriting pass on the copy.  The
insertion phase only reads error fields while building the report, so it leaves
the heap untouched. -/
def addHeapStage (fuel : Nat) (h : List ErrObj) (r : Nat) : List ErrObj :=
  let c := deepcopyE fuel h r
  (rewriteErrH fuel 0 c.1 c.2).1

/-- Every heap cell at index `n` or above references only cells at index `n` or
above — the invariant separating the caller's original objects (below `n`) from
the cells the deep copy appends. -/
def FreshFrom (n : Nat) (h : List ErrObj) : Prop :=
  ∀ i o, n ≤ i → h[i]? = some o → ∀ k ∈ o.kids, n ≤ k

/-- A `ValidationError` whose code 0x10 has the logic bit but not the group bit
(constructible, since the constructor accepts any integer code). -/
def e5cx : VError := .mk [] [] 0x10 "" PyVal.none PyVal.none [] []

/-- An `anyof` logic error at `("price",)` with four children, two under
alternative-definition index 0 and two under index 1. -/
def anyofChild1 : VError :=
  .mk [Seg.s "price"] [Seg.s "price", Seg.s "anyof", Seg.n 0, Seg.s "type"] 0x24 "type"
    (PyVal.str "integer") (PyVal.str "ten") [] []

/-- Second child of the `anyof` scenario (definition 0, `min` rule). -/
def anyofChild2 : VError :=
  .mk [Seg.s "price"] [Seg.s "price", Seg.s "anyof", Seg.n 0, Seg.s "min"] 0x42 "min"
    (PyVal.int 10) (PyVal.str "ten") [] []

/-- Third child of the `anyof` scenario (definition 1, `type` rule). -/
def anyofChild3 : VError :=
  .mk [Seg.s "price"] [Seg.s "price", Seg.s "anyof", Seg.n 1, Seg.s "type"] 0x24 "type"
    (PyVal.str "string") (PyVal.str "ten") [] []

/-- Fourth child of the `anyof` scenario (definition 1, `max` rule). -/
def anyofChild4 : VError :=
  .mk [Seg.s "price"] [Seg.s "price", Seg.s "anyof", Seg.n 1, Seg.s "max"] 0x43 "max"
    (PyVal.int 100) (PyVal.str "ten") [] []

/-- The `anyof` logic error itself (code 0x93). -/
def anyofErr : VError :=
  .mk [Seg.s "price"] [Seg.s "price", Seg.s "anyof"] 0x93 "anyof" PyVal.none
    (PyVal.str "ten") [] [anyofChild1, anyofChild2, anyofChild3, anyofChild4]

/-- A non-logic group error (code 0x81, `schema`) with one plain child. -/
def gC1 : VError :=
  .mk [Seg.s "field1"] [Seg.s "field1", Seg.s "schema"] 0x81 "schema" PyVal.none PyVal.none
    [PyVal.str "stuff"]
    [.mk [Seg.s "field1", Seg.s "sub"] [Seg.s "field1", Seg.s "schema", Seg.s "sub", Seg.s "required"]
      0x02 "required" PyVal.none PyVal.none [] []]

/-- The report tree `add` produces for [[gC1]]. -/
def tC1 : RTree :=
  RTree.cons (Seg.s "field1") []
    (RTree.cons (Seg.s "sub") ["required field"] .nil .nil) .nil

/-- A group error whose single child carries code 0x07, which is absent from the
message catalog. -/
def gC2 : VError :=
  .mk [Seg.s "f"] [Seg.s "f", Seg.s "schema"] 0x81 "schema" PyVal.none PyVal.none
    [PyVal.str "x"]
    [.mk [Seg.s "f", Seg.s "g"] [Seg.s "f", Seg.s "schema", Seg.s "g", Seg.s "x"]
      0x07 "" PyVal.none PyVal.none [] []]

/-- A top-level plain error with the uncatalogued code 0x07. -/
def eC2top : VError := .mk [Seg.s "f"] [Seg.s "f", Seg.s "x"] 0x07 "" PyVal.none PyVal.none [] []

/-- A plain in-catalog error (`DOCUMENT_MISSING`, code 0x01) with an empty
document path. -/
def eC9 : VError := .mk [] [] 0x01 "" PyVal.none PyVal.none [] []

/-- Two errors with equal codes and swapped document/schema paths. -/
def e10a : VError := .mk [Seg.s "a"] [Seg.s "b"] 5 "r" PyVal.none (PyVal.int 1) [] []

/-- The swapped partner of [[e10a]], with different `value`. -/
def e10b : VError := .mk [Seg.s "b"] [Seg.s "a"] 5 "r2" PyVal.none (PyVal.int 2) [] []

/-- First child of the `ErrorTree` group scenario: lives at the unrelated path
`("b",)`. -/
def tc41 : VError := .mk [Seg.s "b"] [Seg.s "b", Seg.s "x"] 0x02 "required" PyVal.none PyVal.none [] []

/-- Second child of the `ErrorTree` group scenario: lives below the parent at
`("a", "x")`. -/
def tc42 : VError := .mk [Seg.s "a", Seg.s "x"] [Seg.s "a", Seg.s "y"] 0x02 "required" PyVal.none PyVal.none [] []

/-- The group error of the `ErrorTree` scenario, at path `("a",)`. -/
def tg4 : VError :=
  .mk [Seg.s "a"] [Seg.s "a", Seg.s "schema"] 0x81 "schema" PyVal.none PyVal.none
    [PyVal.str "s"] [tc41, tc42]

/-- The tree obtained by adding [[tg4]] to an empty `DocumentErrorTree`. -/
def tT4 : ETree :=
  ETree.node []
    [(Seg.s "a", ETree.node [tg4] [(Seg.s "x", ETree.node [tc42] [])]),
     (Seg.s "b", ETree.node [tc41] [])]

/-- A group error with an empty document path whose child lives at `("b",)`. -/
def tg4empty : VError :=
  .mk [] [] 0x81 "schema" PyVal.none PyVal.none [PyVal.str "s"] [tc41]

/-- A two-object heap: a group error at cell 0 whose child is cell 1. -/
def heap6 : List ErrObj :=
  [⟨[Seg.s "a"], [Seg.s "a"], 0x81, "schema", PyVal.none, PyVal.none, [], [1]⟩,
   ⟨[Seg.s "a", Seg.s "b"], [Seg.s "a", Seg.s "s"], 0x02, "required", PyVal.none, PyVal.none, [], []⟩]

@[simp]
theorem code_setDp (dp : List Seg) (e : VError) : (e.setDp dp).code = e.code := by
  cases e; rfl

@[simp]
theorem document_path_setDp (dp : List Seg) (e : VError) : (e.setDp dp).document_path = dp := by
  cases e; rfl

@[simp]
theorem schema_path_setDp (dp : List Seg) (e : VError) : (e.setDp dp).schema_path = e.schema_path := by
  cases e; rfl

@[simp]
theorem info_setDp (dp : List Seg) (e : VError) : (e.setDp dp).info = e.info := by
  cases e; rfl

@[simp]
theorem constraint_setDp (dp : List Seg) (e : VError) : (e.setDp dp).constraint = e.constraint := by
  cases e; rfl

@[simp]
theorem value_setDp (dp : List Seg) (e : VError) : (e.setDp dp).value = e.value := by
  cases e; rfl

@[simp]
theorem rule_setDp (dp : List Seg) (e : VError) : (e.setDp dp).rule = e.rule := by
  cases e; rfl

@[simp]
theorem children_setDp (dp : List Seg) (e : VError) : (e.setDp dp).children = e.children := by
  cases e; rfl

@[simp]
theorem code_setChildren (ch : List VError) (e : VError) : (e.setChildren ch).code = e.code := by
  cases e; rfl

@[simp]
theorem document_path_setChildren (ch : List VError) (e : VError) :
    (e.setChildren ch).document_path = e.document_path := by
  cases e; rfl

@[simp]
theorem schema_path_setChildren (ch : List VError) (e : VError) :
    (e.setChildren ch).schema_path = e.schema_path := by
  cases e; rfl

@[simp]
theorem info_setChildren (ch : List VError) (e : VError) : (e.setChildren ch).info = e.info := by
  cases e; rfl

@[simp]
theorem constraint_setChildren (ch : List VError) (e : VError) :
    (e.setChildren ch).constraint = e.constraint := by
  cases e; rfl

@[simp]
theorem value_setChildren (ch : List VError) (e : VError) : (e.setChildren ch).value = e.value := by
  cases e; rfl

@[simp]
theorem rule_setChildren (ch : List VError) (e : VError) : (e.setChildren ch).rule = e.rule := by
  cases e; rfl

@[simp]
theorem children_setChildren (ch : List VError) (e : VError) : (e.setChildren ch).children = ch := by
  cases e; rfl

@[simp]
theorem isGroupErr_setDp (dp : List Seg) (e : VError) : isGroupErr (e.setDp dp) = isGroupErr e := by
  simp [isGroupErr]

@[simp]
theorem isLogicErr_setDp (dp : List Seg) (e : VError) : isLogicErr (e.setDp dp) = isLogicErr e := by
  simp [isLogicErr]

@[simp]
theorem isGroupErr_setChildren (ch : List VError) (e : VError) :
    isGroupErr (e.setChildren ch) = isGroupErr e := by
  simp [isGroupErr]

@[simp]
theorem isLogicErr_setChildren (ch : List VError) (e : VError) :
    isLogicErr (e.setChildren ch) = isLogicErr e := by
  simp [isLogicErr]

@[simp]
theorem errField_setDp (dp : List Seg) (e : VError) : errField (e.setDp dp) = dp.getLast? := by
  simp [errField]

theorem formatMessage_setDp (f : Option Seg) (dp : List Seg) (e : VError) :
    formatMessage f (e.setDp dp) = formatMessage f e := by
  simp [formatMessage]

theorem pySliceFrom_natCast {α : Type} (n : Nat) (l : List α) :
    pySliceFrom (n : Int) l = l.drop n := by
  simp [pySliceFrom]

@[simp]
theorem exceptOk_bind {α β : Type} (a : α) (f : α → Except PyExc β) :
    (Except.ok a >>= f) = f a := rfl

@[simp]
theorem exceptError_bind {α β : Type} (ex : PyExc) (f : α → Except PyExc β) :
    ((Except.error ex : Except PyExc α) >>= f) = Except.error ex := rfl

/-- The claim of C5, stated for any integer code, fails at code 0x10: the source
computes `is_logic_error` as `code & 0x10` without requiring the group bit, so
this error is a "logic error" that is not a group error. -/
theorem claim_C5_counterexample :
    ¬ ((isLogicErr e5cx = true) ↔ (isGroupErr e5cx = true ∧ e5cx.code &&& 0x10 ≠ 0)) := by
  decide

/-- C5 (amended): `is_group_error(e)` holds iff bit 7 of the code is set, and
`is_logic_error(e)` holds iff bit 4 is set — with no group-bit conjunct. -/
theorem claim_C5_amended (e : VError) :
    (isGroupErr e = true ↔ e.code.testBit 7) ∧ (isLogicErr e = true ↔ e.code.testBit 4) := by
  constructor
  · rw [isGroupErr]
    simp only [bne_iff_ne, ne_eq]
    show ¬ e.code &&& 2 ^ 7 = 0 ↔ _
    rw [Nat.and_two_pow]
    cases h : e.code.testBit 7 <;> simp [h]
  · rw [isLogicErr]
    simp only [bne_iff_ne, ne_eq]
    show ¬ e.code &&& 2 ^ 4 = 0 ↔ _
    rw [Nat.and_two_pow]
    cases h : e.code.testBit 4 <;> simp [h]

/-- The rule-name half of C8 fails: two distinct registry constants
(`DEPENDENCIES_FIELD`, code 0x04, and `DEPENDENCIES_FIELD_VALUE`, code 0x05)
both carry the non-null rule string "dependencies" (likewise `allowed`,
`forbidden` and `items` are shared). -/
theorem claim_C8_counterexample :
    ¬ errorRegistry.Pairwise (fun a b => a.2.rule.isSome → a.2.rule ≠ b.2.rule) := by
  decide

/-- C8 (amended): the codes of the registry's `ErrorDefinition` constants are
globally unique (rule names are not: `dependencies`, `allowed`, `forbidden` and
`items` each belong to two definitions). -/
theorem claim_C8_amended :
    errorRegistry.Pairwise (fun a b => a.2.code ≠ b.2.code) := by
  decide

/-- C10: equality of `ValidationError` is equality of the xor-combined hash, so
swapping the document path and the schema path between two errors with the same
code leaves them equal and equally hashed, for any underlying path/int hash. -/
theorem claim_C10_swap (hp : List Seg → Nat) (hi : Nat → Nat) (e1 e2 : VError)
    (hc : e1.code = e2.code) (hds : e1.document_path = e2.schema_path)
    (hsd : e1.schema_path = e2.document_path) :
    veq hp hi e1 e2 ∧ vhash hp hi e1 = vhash hp hi e2 := by
  have h : vhash hp hi e1 = vhash hp hi e2 := by
    unfold vhash
    rw [hds, hsd, hc, Nat.xor_comm (hp e2.schema_path) (hp e2.document_path)]
  exact ⟨h, h⟩

/-- Witness for C10 at two concrete errors with swapped paths. -/
theorem claim_C10_swap_witness :
    (e10a.code = e10b.code ∧ e10a.document_path = e10b.schema_path
      ∧ e10a.schema_path = e10b.document_path) ∧
    (veq (fun l => l.length) (fun n => n) e10a e10b
      ∧ vhash (fun l => l.length) (fun n => n) e10a
          = vhash (fun l => l.length) (fun n => n) e10b) :=
  ⟨⟨rfl, rfl, rfl⟩, claim_C10_swap (fun l => l.length) (fun n => n) e10a e10b rfl rfl rfl⟩

/-- C7: `__call__` clears the handler's working tree before ingesting the
collection, so its result is independent of the pre-call state — two
invocations of the same instance on the same collection return identical
reports. -/
theorem claim_C7_stateless (fuel : Nat) (t1 t2 : RTree) (errors : List VError) :
    handlerCall fuel t1 errors = handlerCall fuel t2 errors := rfl

/-- C3: the `anyof` scenario — one logic error at `("price",)` with two children
under definition index 0 and two under index 1 — renders to a report whose
"price" field holds the anyof summary message plus the two synthetic
sub-entries, each with its children's formatted messages. -/
theorem claim_C3_anyof_scenario :
    handlerCall 5 RTree.nil [anyofErr] =
      .ok (PTree.consNode (Seg.s "price") ["no definitions validate"]
        (PTree.consLeaf (Seg.s "anyof definition 0")
          ["must be of integer type", "min value is 10"]
          (PTree.consLeaf (Seg.s "anyof definition 1")
            ["must be of string type", "max value is 100"] .nil))
        .nil) := by
  rfl

/-- The claim of C1 fails on the code: `_insert_group_error` never formats or
inserts the group error's own summary message.  For the concrete group error
[[gC1]] the summary formats fine, yet the report holds no message at the
group's document path — only the child's message at the child's path. -/
theorem claim_C1_counterexample :
    addError 5 RTree.nil gC1 = .ok tC1 ∧
    formatMessage (errField gC1) gC1 = .ok "mapping doesn't validate subschema: stuff" ∧
    msgsAt [Seg.s "field1"] tC1 = [] ∧
    msgsAt [Seg.s "field1", Seg.s "sub"] tC1 = ["required field"] :=
  ⟨rfl, rfl, rfl, rfl⟩

/-- The tolerance half of C2 fails for nested errors: a child with the
uncatalogued code 0x07 inside a group error makes `add` raise `KeyError` from
`_format_message`, instead of being skipped. -/
theorem claim_C2_counterexample :
    addError 5 RTree.nil gC2 = .error .keyError := rfl

/-- C2 (amended): only a top-level error that is neither a group nor a logic
error and whose code is absent from the message catalog is silently skipped —
`add` returns with the report unchanged; a child with an absent code inside a
group or logic error instead raises `KeyError` (see the counterexample). -/
theorem claim_C2_amended (fuel : Nat) (t : RTree) (e : VError)
    (h1 : isLogicErr e = false) (h2 : isGroupErr e = false)
    (h3 : lookupCode e.code msgCatalog = Option.none) :
    addError (fuel + 1) t e = .ok t := by
  simp [addError, rewriteErrorPath, h1, h2, h3, pure, Except.pure]

/-- Witness for the amended C2 at a plain error with code 0x07. -/
theorem claim_C2_amended_witness :
    (isLogicErr eC2top = false ∧ isGroupErr eC2top = false
      ∧ lookupCode eC2top.code msgCatalog = Option.none) ∧
    addError 1 RTree.nil eC2top = .ok RTree.nil :=
  ⟨⟨by decide, by decide, by decide⟩,
    claim_C2_amended 0 RTree.nil eC2top (by decide) (by decide) (by decide)⟩

theorem lookupCode_isSome_mem (c : Nat) (l : List (Nat × List TPart))
    (h : (lookupCode c l).isSome = true) : c ∈ l.map Prod.fst := by
  induction l with
  | nil => simp [lookupCode] at h
  | cons p rest ih =>
      obtain ⟨k, v⟩ := p
      by_cases hk : k = c
      · simp [hk]
      · simp only [lookupCode, if_neg hk] at h
        simp [ih h]

theorem catalog_codes_not_plain_logic :
    ∀ c ∈ msgCatalog.map Prod.fst, (c &&& 0x80 ≠ 0) ∨ (c &&& 0x10 = 0) := by
  decide

theorem isLogic_false_of_catalog_plain (e : VError) (hg : isGroupErr e = false)
    (hc : (lookupCode e.code msgCatalog).isSome = true) : isLogicErr e = false := by
  have hmem := lookupCode_isSome_mem e.code msgCatalog hc
  have hd := catalog_codes_not_plain_logic e.code hmem
  rw [isGroupErr] at hg
  rw [isLogicErr]
  simp only [ERROR_GROUP, LOGICAL, bne_eq_false_iff_eq] at hg ⊢
  rcases hd with hd | hd
  · exact absurd hg hd
  · exact hd

theorem renderParts_cases (info : List PyVal) (ct : PyVal) (f : Option Seg) (v : PyVal)
    (parts : List TPart) :
    (∃ ss, parts.mapM (renderPart info ct f v) = .ok ss) ∨
      parts.mapM (renderPart info ct f v) = .error .indexError := by
  induction parts with
  | nil => exact Or.inl ⟨[], rfl⟩
  | cons p ps ih =>
      have hp : (∃ s, renderPart info ct f v p = .ok s) ∨
          renderPart info ct f v p = .error .indexError := by
        cases p with
        | lit s => exact Or.inl ⟨s, rfl⟩
        | pos k =>
            cases h : info[k]? with
            | none => exact Or.inr (by simp only [renderPart, h]; rfl)
            | some x => exact Or.inl ⟨renderVal x, by simp only [renderPart, h]; rfl⟩
        | constraintP => exact Or.inl ⟨renderVal ct, rfl⟩
        | fieldP => exact Or.inl ⟨fieldStr f, rfl⟩
        | valueP => exact Or.inl ⟨renderVal v, rfl⟩
      rw [List.mapM_cons]
      rcases hp with ⟨s, hs⟩ | hp
      · rw [hs]
        rcases ih with ⟨ss, hss⟩ | hih
        · exact Or.inl ⟨s :: ss, by rw [hss]; rfl⟩
        · exact Or.inr (by rw [hih]; rfl)
      · exact Or.inr (by rw [hp]; rfl)

theorem formatMessage_cases (f : Option Seg) (e : VError)
    (hc : (lookupCode e.code msgCatalog).isSome = true) :
    (∃ s, formatMessage f e = .ok s) ∨ formatMessage f e = .error .indexError := by
  rw [formatMessage]
  cases hl : lookupCode e.code msgCatalog with
  | none => rw [hl] at hc; simp at hc
  | some parts =>
      rcases renderParts_cases e.info e.constraint f e.value parts with ⟨ss, hss⟩ | h
      · refine Or.inl ⟨String.join ss, ?_⟩
        show (parts.mapM (renderPart e.info e.constraint f e.value)
          >>= fun ss2 => pure (String.join ss2)) = _
        rw [hss]; rfl
      · refine Or.inr ?_
        show (parts.mapM (renderPart e.info e.constraint f e.value)
          >>= fun ss2 => pure (String.join ss2)) = _
        rw [h]; rfl

/-- C9: a plain (non-group) error with an empty `document_path` and a code
present in the message catalog makes `add` raise `IndexError`: formatting can
only fail with `IndexError` itself, and the insertion primitive reads `path[0]`
of the empty path. -/
theorem claim_C9_empty_path (fuel : Nat) (t : RTree) (e : VError)
    (hg : isGroupErr e = false) (hdp : e.document_path = [])
    (hc : (lookupCode e.code msgCatalog).isSome = true) :
    addError (fuel + 1) t e = .error .indexError := by
  have hl := isLogic_false_of_catalog_plain e hg hc
  rw [addError]
  have hre : rewriteErrorPath (fuel + 1) 0 e = pure e := by
    simp [rewriteErrorPath, hl, hg]
  rw [hre]
  simp only [pure_bind, hl, hg, hc, Bool.false_eq_true, if_false, if_true]
  rw [hdp]
  rcases formatMessage_cases (errField e) e hc with ⟨s, hs⟩ | h
  · rw [hs]; rfl
  · rw [h]; rfl

/-- Witness for C9: `DOCUMENT_MISSING` (code 0x01) at the empty path. -/
theorem claim_C9_witness :
    (isGroupErr eC9 = false ∧ eC9.document_path = []
      ∧ (lookupCode eC9.code msgCatalog).isSome = true) ∧
    addError 1 RTree.nil eC9 = .error .indexError :=
  ⟨⟨by decide, rfl, by decide⟩,
    claim_C9_empty_path 0 RTree.nil eC9 (by decide) rfl (by decide)⟩

theorem rewriteErrorPath_plain (fuel off : Nat) (e : VError)
    (h1 : isLogicErr e = false) (h2 : isGroupErr e = false) :
    rewriteErrorPath (fuel + 1) off e = .ok e := by
  simp [rewriteErrorPath, h1, h2, pure, Except.pure]

theorem mapM_ok_of_forall {α β : Type} (f : α → Except PyExc β) (g : α → β) (l : List α)
    (h : ∀ a ∈ l, f a = .ok (g a)) : l.mapM f = .ok (l.map g) := by
  induction l with
  | nil => rfl
  | cons x xs ih =>
      rw [List.mapM_cons, h x (List.mem_cons_self x xs),
        ih (fun a ha => h a (List.mem_cons_of_mem x ha)), List.map_cons]
      rfl

theorem foldlM_map {α β γ : Type} (g : α → β) (f : γ → β → Except PyExc γ) (l : List α)
    (init : γ) :
    List.foldlM f init (l.map g) = List.foldlM (fun acc a => f acc (g a)) init l := by
  induction l generalizing init with
  | nil => rfl
  | cons x xs ih =>
      rw [List.map_cons, List.foldlM_cons, List.foldlM_cons]
      cases f init (g x) with
      | error ex => rfl
      | ok acc => exact ih acc

theorem foldlM_congr {α γ : Type} (f1 f2 : γ → α → Except PyExc γ) (l : List α) (init : γ)
    (h : ∀ acc a, a ∈ l → f1 acc a = f2 acc a) :
    List.foldlM f1 init l = List.foldlM f2 init l := by
  induction l generalizing init with
  | nil => rfl
  | cons x xs ih =>
      rw [List.foldlM_cons, List.foldlM_cons, h init x (List.mem_cons_self x xs)]
      cases f2 init x with
      | error ex => rfl
      | ok acc => exact ih acc (fun a b hb => h a b (List.mem_cons_of_mem x hb))

theorem childErrors_of_group (e : VError) (hg : isGroupErr e = true) :
    childErrors e = some e.children := by
  simp [childErrors, hg]

theorem childList_of_group (e : VError) (hg : isGroupErr e = true) :
    childList e = e.children := by
  rw [childList, childErrors_of_group e hg]
  rfl

@[simp]
theorem throw_eq_error {α : Type} (ex : PyExc) :
    (throw ex : Except PyExc α) = Except.error ex := rfl

theorem bind_pure_ok {α β : Type} (m : Except PyExc α) (f : α → β) (b : β)
    (h : (m >>= fun a => pure (f a)) = .ok b) : ∃ a, m = .ok a ∧ b = f a := by
  cases m with
  | error ex => simp at h
  | ok a =>
      rw [exceptOk_bind] at h
      exact ⟨a, rfl, (Except.ok.inj h).symm⟩

theorem rewriteErrorPath_zero (off : Nat) (e : VError) :
    rewriteErrorPath 0 off e = .error .recursionError := rfl

theorem insertGL_succ (fuel : Nat) (t : RTree) (e : VError) :
    insertGL (fuel + 1) t e =
      if isLogicErr e then insertLogicBody (insertGL fuel) t e
      else insertGroupBody (insertGL fuel) t e := rfl

theorem rewriteGroupPathBody_code (recur : Nat → VError → Except PyExc VError) (off : Nat)
    (e e2 : VError) (h : rewriteGroupPathBody recur off e = .ok e2) :
    ∃ ch2, e2 = e.setChildren ch2 := by
  simp only [rewriteGroupPathBody] at h
  cases hce : childErrors e with
  | none =>
      simp only [hce, throw_eq_error, exceptError_bind] at h
      simp at h
  | some l =>
      simp only [hce, pure_bind] at h
      obtain ⟨ch2, _, he⟩ := bind_pure_ok _ _ _ h
      exact ⟨ch2, he⟩

theorem rewriteLogicPathBody_code (recur : Nat → VError → Except PyExc VError) (off : Nat)
    (e e2 : VError) (h : rewriteLogicPathBody recur off e = .ok e2) :
    ∃ ch2, e2 = e.setChildren ch2 := by
  simp only [rewriteLogicPathBody] at h
  cases hd : definitionsErrors e with
  | error ex => rw [hd] at h; simp at h
  | ok bs =>
      rw [hd, exceptOk_bind] at h
      cases hce : childErrors e with
      | none =>
      simp only [hce, throw_eq_error, exceptError_bind] at h
      simp at h
      | some l =>
          simp only [hce, pure_bind] at h
          obtain ⟨ch2, _, he⟩ := bind_pure_ok _ _ _ h
          exact ⟨ch2, he⟩

theorem rewriteErrorPath_succ (fuel off : Nat) (e : VError) :
    rewriteErrorPath (fuel + 1) off e =
      if isLogicErr e then rewriteLogicPathBody (rewriteErrorPath fuel) off e
      else if isGroupErr e then rewriteGroupPathBody (rewriteErrorPath fuel) off e
      else pure e := rfl

theorem rewriteGroupPathBody_ok (recur : Nat → VError → Except PyExc VError) (off : Nat)
    (e : VError) (hg : isGroupErr e = true)
    (hrec : ∀ c ∈ e.children,
      recur off (c.setDp (e.document_path
        ++ pySliceFrom ((e.document_path.length : Int) - (off : Int)) c.document_path))
      = .ok (c.setDp (e.document_path
        ++ pySliceFrom ((e.document_path.length : Int) - (off : Int)) c.document_path))) :
    rewriteGroupPathBody recur off e =
      .ok (e.setChildren (e.children.map (fun c => c.setDp (e.document_path
        ++ pySliceFrom ((e.document_path.length : Int) - (off : Int)) c.document_path)))) := by
  simp only [rewriteGroupPathBody, childErrors_of_group e hg, pure_bind, exceptOk_bind]
  rw [mapM_ok_of_forall _ _ e.children hrec]
  rfl

theorem rewriteErrorPath_code (fuel off : Nat) (e e2 : VError)
    (h : rewriteErrorPath fuel off e = .ok e2) : e2.code = e.code := by
  cases fuel with
  | zero => rw [rewriteErrorPath_zero] at h; simp at h
  | succ fuel =>
      rw [rewriteErrorPath_succ] at h
      by_cases hl : isLogicErr e = true
      · rw [if_pos hl] at h
        obtain ⟨ch2, rfl⟩ := rewriteLogicPathBody_code _ _ _ _ h
        simp
      · rw [if_neg hl] at h
        by_cases hg : isGroupErr e = true
        · rw [if_pos hg] at h
          obtain ⟨ch2, rfl⟩ := rewriteGroupPathBody_code _ _ _ _ h
          simp
        · rw [if_neg hg] at h
          obtain rfl := Except.ok.inj h
          rfl

/-- C1 (amended): for every group error `g` that is not a logic error, `add` is
exactly path rewriting followed by the per-child classification dispatch over
the rewritten children — a logic child through `_insert_logic_error`, a group
child through `_insert_group_error`, a plain child formatted and inserted at its
rewritten document path.  No term for `g`'s own summary message occurs: the
group error's own message is never formatted or inserted. -/
theorem claim_C1_amended (fuel : Nat) (t : RTree) (g : VError)
    (hg : isGroupErr g = true) (hl : isLogicErr g = false) :
    addError (fuel + 1) t g =
      rewriteErrorPath (fuel + 1) 0 g >>= fun g2 =>
        (childList g2).foldlM (fun acc c =>
          if isLogicErr c then insertLogicBody (insertGL fuel) acc c
          else if isGroupErr c then insertGroupBody (insertGL fuel) acc c
          else do
            let m ← formatMessage (errField c) c
            insertErr c.document_path m acc) t := by
  rw [addError]
  cases hrw : rewriteErrorPath (fuel + 1) 0 g with
  | error ex => rfl
  | ok g2 =>
      rw [exceptOk_bind, exceptOk_bind]
      have hcode := rewriteErrorPath_code (fuel + 1) 0 g g2 hrw
      have hg2 : isGroupErr g2 = true := by
        simp only [isGroupErr] at hg ⊢
        rw [hcode]
        exact hg
      have hl2 : isLogicErr g2 = false := by
        simp only [isLogicErr] at hl ⊢
        rw [hcode]
        exact hl
      rw [hl2]
      simp only [Bool.false_eq_true, if_false]
      rw [if_pos hg2, insertGroupBody]
      simp only [childErrors_of_group g2 hg2, pure_bind, childList_of_group g2 hg2]
      apply foldlM_congr
      intro acc c _
      by_cases hcl2 : isLogicErr c = true
      · rw [if_pos hcl2, if_pos hcl2, insertGL_succ, if_pos hcl2]
      · rw [if_neg hcl2, if_neg hcl2]
        by_cases hcg : isGroupErr c = true
        · rw [if_pos hcg, if_pos hcg, insertGL_succ, if_neg hcl2]
        · rw [if_neg hcg, if_neg hcg]

/-- Witness for the amended C1 at the concrete group error [[gC1]]. -/
theorem claim_C1_amended_witness :
    (isGroupErr gC1 = true ∧ isLogicErr gC1 = false) ∧
    addError 3 RTree.nil gC1 =
      rewriteErrorPath 3 0 gC1 >>= fun g2 =>
        (childList g2).foldlM (fun acc c =>
          if isLogicErr c then insertLogicBody (insertGL 2) acc c
          else if isGroupErr c then insertGroupBody (insertGL 2) acc c
          else do
            let m ← formatMessage (errField c) c
            insertErr c.document_path m acc) RTree.nil :=
  ⟨⟨by decide, by decide⟩, claim_C1_amended 2 RTree.nil gC1 (by decide) (by decide)⟩

@[simp]
theorem etErrors_node (es : List VError) (d : List (Seg × ETree)) :
    etErrors (.node es d) = es := rfl

@[simp]
theorem etDesc_node (es : List VError) (d : List (Seg × ETree)) :
    etDesc (.node es d) = d := rfl

theorem mem_insErrSorted (a e : VError) (l : List VError) :
    a ∈ insErrSorted e l ↔ a = e ∨ a ∈ l := by
  induction l with
  | nil => simp [insErrSorted]
  | cons x xs ih =>
      rw [insErrSorted]
      cases herr : errLt e x with
      | true => simp [List.mem_cons]
      | false =>
          simp only [Bool.false_eq_true, if_false, List.mem_cons, ih]
          tauto

theorem mem_sortErrs (a : VError) (l : List VError) : a ∈ sortErrs l ↔ a ∈ l := by
  induction l with
  | nil => simp [sortErrs]
  | cons x xs ih =>
      rw [sortErrs, mem_insErrSorted]
      simp [ih, List.mem_cons]

theorem descGet_descSet_self (k : Seg) (v : ETree) (d : List (Seg × ETree)) :
    descGet k (descSet k v d) = some v := by
  induction d with
  | nil => simp [descSet, descGet]
  | cons p rest ih =>
      obtain ⟨k2, t2⟩ := p
      by_cases h : k2 = k
      · simp [descSet, descGet, h]
      · simp [descSet, descGet, h, ih]

theorem descGet_descSet_ne (k q : Seg) (v : ETree) (d : List (Seg × ETree)) (h : q ≠ k) :
    descGet q (descSet k v d) = descGet q d := by
  induction d with
  | nil => simp [descSet, descGet, Ne.symm h]
  | cons p rest ih =>
      obtain ⟨k2, t2⟩ := p
      by_cases h2 : k2 = k
      · subst h2
        simp [descSet, descGet, Ne.symm h]
      · by_cases h3 : k2 = q
        · simp [descSet, descGet, h2, h3, h]
        · simp [descSet, descGet, h2, h3, ih]

theorem fetchErrorsFrom_cons_none (k : Seg) (rest : List Seg) (t : ETree)
    (hk : descGet k (etDesc t) = Option.none) : fetchErrorsFrom (k :: rest) t = [] := by
  simp only [fetchErrorsFrom, fetchNode, hk]

theorem fetchErrorsFrom_cons_some (k : Seg) (rest : List Seg) (t c : ETree)
    (hk : descGet k (etDesc t) = some c) :
    fetchErrorsFrom (k :: rest) t = fetchErrorsFrom rest c := by
  simp only [fetchErrorsFrom, fetchNode, hk]

@[simp]
theorem fetchErrorsFrom_nil (t : ETree) : fetchErrorsFrom [] t = etErrors t := rfl

@[simp]
theorem nodeInsert_nil (e : VError) (t : ETree) : nodeInsert e [] t = t := rfl

theorem fetchErrorsFrom_cons_descSet_self (k : Seg) (rest : List Seg) (es : List VError)
    (d : List (Seg × ETree)) (v : ETree) :
    fetchErrorsFrom (k :: rest) (ETree.node es (descSet k v d)) = fetchErrorsFrom rest v :=
  fetchErrorsFrom_cons_some k rest _ v (by simp [descGet_descSet_self])

theorem fetchErrorsFrom_cons_descSet_ne (k q : Seg) (rest : List Seg) (es : List VError)
    (d : List (Seg × ETree)) (v : ETree) (h : q ≠ k) :
    fetchErrorsFrom (q :: rest) (ETree.node es (descSet k v d))
      = fetchErrorsFrom (q :: rest) (ETree.node es d) := by
  cases hd : descGet q d with
  | none =>
      rw [fetchErrorsFrom_cons_none q rest _ (by simpa [descGet_descSet_ne k q v d h] using hd),
        fetchErrorsFrom_cons_none q rest _ (by simpa using hd)]
  | some c =>
      rw [fetchErrorsFrom_cons_some q rest _ c (by simpa [descGet_descSet_ne k q v d h] using hd),
        fetchErrorsFrom_cons_some q rest _ c (by simpa using hd)]

theorem fetchErrorsFrom_cons_node (q : Seg) (qr : List Seg) (es1 es2 : List VError)
    (d0 : List (Seg × ETree)) :
    fetchErrorsFrom (q :: qr) (ETree.node es1 d0) = fetchErrorsFrom (q :: qr) (ETree.node es2 d0) := by
  cases hd : descGet q d0 with
  | none =>
      rw [fetchErrorsFrom_cons_none q qr _ (by simpa using hd),
        fetchErrorsFrom_cons_none q qr _ (by simpa using hd)]
  | some c =>
      rw [fetchErrorsFrom_cons_some q qr _ c (by simpa using hd),
        fetchErrorsFrom_cons_some q qr _ c (by simpa using hd)]

theorem mem_fetch_nodeInsert_self (e : VError) (p : List Seg) (t : ETree) (hp : p ≠ []) :
    e ∈ fetchErrorsFrom p (nodeInsert e p t) := by
  induction p generalizing t with
  | nil => exact absurd rfl hp
  | cons k rest ih =>
      cases t with
      | node es d =>
          cases rest with
          | nil =>
              rw [nodeInsert, fetchErrorsFrom_cons_descSet_self]
              simp [mem_sortErrs]
          | cons k2 rest2 =>
              rw [nodeInsert, fetchErrorsFrom_cons_descSet_self]
              exact ih _ (by simp)

theorem mem_fetch_nodeInsert_mono (a e : VError) (p q : List Seg) (t : ETree)
    (h : a ∈ fetchErrorsFrom q t) : a ∈ fetchErrorsFrom q (nodeInsert e p t) := by
  induction p generalizing q t with
  | nil => simpa using h
  | cons k rest ih =>
      cases t with
      | node es d =>
          cases q with
          | nil =>
              cases rest with
              | nil => rw [nodeInsert]; simpa using h
              | cons k2 rest2 => rw [nodeInsert]; simpa using h
          | cons kq qrest =>
              by_cases hkq : kq = k
              · subst hkq
                cases hd : descGet kq d with
                | none =>
                    rw [fetchErrorsFrom_cons_none kq qrest _ (by simpa using hd)] at h
                    exact absurd h (List.not_mem_nil a)
                | some child =>
                    rw [fetchErrorsFrom_cons_some kq qrest _ child (by simpa using hd)] at h
                    cases rest with
                    | nil =>
                        rw [nodeInsert, fetchErrorsFrom_cons_descSet_self, hd,
                          Option.getD_some]
                        cases child with
                        | node esc dc =>
                            cases qrest with
                            | nil =>
                                rw [fetchErrorsFrom_nil] at h
                                simp only [fetchErrorsFrom_nil, etErrors_node, mem_sortErrs]
                                exact List.mem_append.mpr (Or.inl h)
                            | cons q2 qr2 =>
                                rw [fetchErrorsFrom_cons_node q2 qr2 _ esc]
                                exact h
                    | cons k2 rest2 =>
                        rw [nodeInsert, fetchErrorsFrom_cons_descSet_self, hd,
                          Option.getD_some]
                        exact ih qrest child h
              · cases rest with
                | nil =>
                    rw [nodeInsert, fetchErrorsFrom_cons_descSet_ne k kq qrest es d _ hkq]
                    exact h
                | cons k2 rest2 =>
                    rw [nodeInsert, fetchErrorsFrom_cons_descSet_ne k kq qrest es d _ hkq]
                    exact h

theorem treeAddE_zero (sel : Bool) (t : ETree) (e : VError) :
    treeAddE sel 0 t e = .error .recursionError := rfl

theorem treeAddE_succ (sel : Bool) (fuel : Nat) (t : ETree) (e : VError) :
    treeAddE sel (fuel + 1) t e =
      if pathOfSel sel e = [] then
        pure (ETree.node (sortErrs (etErrors t ++ [e])) (etDesc t))
      else if isGroupErr e then
        (childList e).foldlM (treeAddE sel fuel) (nodeInsert e (pathOfSel sel e) t)
      else pure (nodeInsert e (pathOfSel sel e) t) := rfl

theorem mem_fetch_rootAppend (a e : VError) (q : List Seg) (t : ETree)
    (h : a ∈ fetchErrorsFrom q t) :
    a ∈ fetchErrorsFrom q (ETree.node (sortErrs (etErrors t ++ [e])) (etDesc t)) := by
  cases q with
  | nil =>
      rw [fetchErrorsFrom_nil] at h
      simp only [fetchErrorsFrom_nil, etErrors_node, mem_sortErrs]
      exact List.mem_append.mpr (Or.inl h)
  | cons kq qrest =>
      cases hd : descGet kq (etDesc t) with
      | none =>
          rw [fetchErrorsFrom_cons_none kq qrest _ hd] at h
          exact absurd h (List.not_mem_nil a)
      | some child =>
          rw [fetchErrorsFrom_cons_some kq qrest _ child hd] at h
          rw [fetchErrorsFrom_cons_some kq qrest _ child (by simpa using hd)]
          exact h

theorem treeAddE_mono (sel : Bool) :
    ∀ (fuel : Nat) (t : ETree) (e : VError) (t2 : ETree) (q : List Seg) (a : VError),
      treeAddE sel fuel t e = .ok t2 → a ∈ fetchErrorsFrom q t → a ∈ fetchErrorsFrom q t2 := by
  intro fuel
  induction fuel with
  | zero =>
      intro t e t2 q a hadd
      rw [treeAddE_zero] at hadd
      simp at hadd
  | succ fuel ih =>
      have foldmono : ∀ (l : List VError) (t t2 : ETree) (q : List Seg) (a : VError),
          List.foldlM (treeAddE sel fuel) t l = .ok t2 →
          a ∈ fetchErrorsFrom q t → a ∈ fetchErrorsFrom q t2 := by
        intro l
        induction l with
        | nil =>
            intro t t2 q a hf hm
            rw [List.foldlM_nil] at hf
            obtain rfl := Except.ok.inj hf
            exact hm
        | cons x xs ihl =>
            intro t t2 q a hf hm
            rw [List.foldlM_cons] at hf
            cases hx : treeAddE sel fuel t x with
            | error ex => rw [hx] at hf; simp at hf
            | ok tmid =>
                rw [hx] at hf
                rw [exceptOk_bind] at hf
                exact ihl tmid t2 q a hf (ih t x tmid q a hx hm)
      intro t e t2 q a hadd hm
      rw [treeAddE_succ] at hadd
      by_cases hp : pathOfSel sel e = []
      · rw [if_pos hp] at hadd
        obtain rfl := Except.ok.inj hadd
        exact mem_fetch_rootAppend a e q t hm
      · rw [if_neg hp] at hadd
        cases hge : isGroupErr e with
        | false =>
            rw [hge] at hadd
            simp only [Bool.false_eq_true, if_false] at hadd
            obtain rfl := Except.ok.inj hadd
            exact mem_fetch_nodeInsert_mono a e _ q t hm
        | true =>
            rw [if_pos hge] at hadd
            exact foldmono (childList e) _ t2 q a hadd
              (mem_fetch_nodeInsert_mono a e _ q t hm)

theorem foldlM_treeAdd_keep (sel : Bool) (fuel : Nat) (q : List Seg) (a : VError) :
    ∀ (l : List VError) (t t2 : ETree),
      List.foldlM (treeAddE sel fuel) t l = .ok t2 →
      a ∈ fetchErrorsFrom q t → a ∈ fetchErrorsFrom q t2 := by
  intro l
  induction l with
  | nil =>
      intro t t2 hf hm
      rw [List.foldlM_nil] at hf
      obtain rfl := Except.ok.inj hf
      exact hm
  | cons x xs ihl =>
      intro t t2 hf hm
      rw [List.foldlM_cons] at hf
      cases hx : treeAddE sel fuel t x with
      | error ex => rw [hx] at hf; simp at hf
      | ok tmid =>
          rw [hx, exceptOk_bind] at hf
          exact ihl tmid t2 hf (treeAddE_mono sel fuel t x tmid q a hx hm)

theorem treeAddE_self (sel : Bool) (fuel : Nat) (t : ETree) (e : VError) (t2 : ETree)
    (hadd : treeAddE sel fuel t e = .ok t2) :
    e ∈ fetchErrorsFrom (pathOfSel sel e) t2 := by
  cases fuel with
  | zero => rw [treeAddE_zero] at hadd; simp at hadd
  | succ fuel =>
      rw [treeAddE_succ] at hadd
      by_cases hp : pathOfSel sel e = []
      · rw [if_pos hp] at hadd
        obtain rfl := Except.ok.inj hadd
        rw [hp, fetchErrorsFrom_nil, etErrors_node, mem_sortErrs]
        exact List.mem_append.mpr (Or.inr (List.mem_singleton.mpr rfl))
      · rw [if_neg hp] at hadd
        cases hge : isGroupErr e with
        | false =>
            rw [hge] at hadd
            simp only [Bool.false_eq_true, if_false] at hadd
            obtain rfl := Except.ok.inj hadd
            exact mem_fetch_nodeInsert_self e _ t hp
        | true =>
            rw [if_pos hge] at hadd
            exact foldlM_treeAdd_keep sel fuel (pathOfSel sel e) e (childList e) _ t2 hadd
              (mem_fetch_nodeInsert_self e _ t hp)

theorem foldlM_treeAdd_each (sel : Bool) (fuel : Nat) :
    ∀ (l : List VError) (t t2 : ETree),
      List.foldlM (treeAddE sel fuel) t l = .ok t2 →
      ∀ c ∈ l, c ∈ fetchErrorsFrom (pathOfSel sel c) t2 := by
  intro l
  induction l with
  | nil => intro t t2 _ c hc; exact absurd hc (List.not_mem_nil c)
  | cons x xs ihl =>
      intro t t2 hf c hc
      rw [List.foldlM_cons] at hf
      cases hx : treeAddE sel fuel t x with
      | error ex => rw [hx] at hf; simp at hf
      | ok tmid =>
          rw [hx, exceptOk_bind] at hf
          rcases List.mem_cons.mp hc with rfl | hc2
          · exact foldlM_treeAdd_keep sel fuel (pathOfSel sel c) c xs tmid t2 hf
              (treeAddE_self sel fuel t c tmid hx)
          · exact ihl tmid t2 hf c hc2

/-- The claim of C4, quantified over every group error, fails when the group
error's own path is empty: `ErrorTree.add` then appends it to the root error
list without flattening `child_errors`, so the child at `("b",)` is not
fetchable at its own path. -/
theorem claim_C4_counterexample :
    isGroupErr tg4empty = true ∧ tg4empty.children = [tc41] ∧
    tc41.document_path = [Seg.s "b"] ∧
    (treeAddE false 3 (ETree.node [] []) tg4empty).map (fetchErrorsFrom [Seg.s "b"])
      = .ok [] :=
  ⟨rfl, rfl, rfl, rfl⟩

/-- C4 (amended): for a group error `g` whose path (per the tree's `tree_type`)
is nonempty, a successful `ErrorTree.add` makes the summary error fetchable at
its own path and every `child_errors` entry independently fetchable at its own
path in the same tree. -/
theorem claim_C4_amended (sel : Bool) (fuel : Nat) (t : ETree) (g : VError) (t2 : ETree)
    (hg : isGroupErr g = true) (hp : pathOfSel sel g ≠ [])
    (hadd : treeAddE sel fuel t g = .ok t2) :
    g ∈ fetchErrorsFrom (pathOfSel sel g) t2 ∧
      ∀ c ∈ childList g, c ∈ fetchErrorsFrom (pathOfSel sel c) t2 := by
  refine ⟨treeAddE_self sel fuel t g t2 hadd, ?_⟩
  cases fuel with
  | zero => rw [treeAddE_zero] at hadd; simp at hadd
  | succ fuel =>
      rw [treeAddE_succ, if_neg hp, if_pos hg] at hadd
      exact foldlM_treeAdd_each sel fuel (childList g) _ t2 hadd

/-- Witness for the amended C4: the concrete group error [[tg4]] with children
at `("b",)` and `("a","x")` in a fresh document tree. -/
theorem claim_C4_amended_witness :
    (isGroupErr tg4 = true ∧ pathOfSel false tg4 ≠ []
      ∧ treeAddE false 3 (ETree.node [] []) tg4 = .ok tT4) ∧
    (tg4 ∈ fetchErrorsFrom (pathOfSel false tg4) tT4 ∧
      ∀ c ∈ childList tg4, c ∈ fetchErrorsFrom (pathOfSel false c) tT4) :=
  ⟨⟨by decide, by decide, rfl⟩,
    claim_C4_amended false 3 (ETree.node [] []) tg4 tT4 (by decide) (by decide) rfl⟩

theorem freshFrom_of_length (n : Nat) (h : List ErrObj) (hn : h.length ≤ n) : FreshFrom n h := by
  intro i o hi hget k hk
  rw [List.getElem?_eq_none (by omega)] at hget
  cases hget

theorem freshFrom_append (n : Nat) (h ext : List ErrObj) (hf : FreshFrom n h)
    (hext : ∀ o ∈ ext, ∀ k ∈ o.kids, n ≤ k) : FreshFrom n (h ++ ext) := by
  intro i o hi hget k hk
  by_cases hlt : i < h.length
  · rw [List.getElem?_append_left hlt] at hget
    exact hf i o hi hget k hk
  · rw [List.getElem?_append_right (by omega)] at hget
    exact hext o (List.getElem?_mem hget) k hk

theorem copyKidsFold_spec (recur : List ErrObj → Nat → List ErrObj × Nat) (n : Nat)
    (hrec : ∀ (h : List ErrObj) (r : Nat), n ≤ h.length → FreshFrom n h →
      (∃ ext, (recur h r).1 = h ++ ext) ∧ FreshFrom n (recur h r).1 ∧ n ≤ (recur h r).2) :
    ∀ (ks : List Nat) (st : List ErrObj × List Nat),
      n ≤ st.1.length → FreshFrom n st.1 → (∀ k ∈ st.2, n ≤ k) →
      (∃ ext, (copyKidsFold recur st ks).1 = st.1 ++ ext)
        ∧ FreshFrom n (copyKidsFold recur st ks).1
        ∧ ∀ k ∈ (copyKidsFold recur st ks).2, n ≤ k := by
  intro ks
  induction ks with
  | nil =>
      intro st h1 h2 h3
      exact ⟨⟨[], by simp [copyKidsFold]⟩, h2, h3⟩
  | cons k ks ihk =>
      intro st h1 h2 h3
      obtain ⟨⟨ext1, hext1⟩, hf1, hr1⟩ := hrec st.1 k h1 h2
      have hlen1 : n ≤ (recur st.1 k).1.length := by
        rw [hext1, List.length_append]; omega
      have hacc : ∀ kk ∈ st.2 ++ [(recur st.1 k).2], n ≤ kk := by
        intro kk hkk
        rcases List.mem_append.mp hkk with hm | hm
        · exact h3 kk hm
        · rw [List.mem_singleton.mp hm]; exact hr1
      have hres := ihk ((recur st.1 k).1, st.2 ++ [(recur st.1 k).2]) hlen1 hf1 hacc
      obtain ⟨⟨ext2, hext2⟩, hf2, hk2⟩ := hres
      have hfold : copyKidsFold recur st (k :: ks) =
          copyKidsFold recur ((recur st.1 k).1, st.2 ++ [(recur st.1 k).2]) ks := by
        simp only [copyKidsFold, List.foldl_cons]
      rw [hfold]
      refine ⟨⟨ext1 ++ ext2, ?_⟩, hf2, hk2⟩
      rw [hext2]
      show (recur st.1 k).1 ++ ext2 = st.1 ++ (ext1 ++ ext2)
      rw [hext1, List.append_assoc]

theorem deepcopyE_spec :
    ∀ (fuel : Nat) (h : List ErrObj) (r n : Nat), n ≤ h.length → FreshFrom n h →
      (∃ ext, (deepcopyE fuel h r).1 = h ++ ext) ∧ FreshFrom n (deepcopyE fuel h r).1
        ∧ n ≤ (deepcopyE fuel h r).2 := by
  intro fuel
  induction fuel with
  | zero =>
      intro h r n hn hf
      refine ⟨⟨[defaultErrObj], rfl⟩, ?_, by simpa using hn⟩
      refine freshFrom_append n h [defaultErrObj] hf ?_
      intro o ho k hk
      rw [List.mem_singleton.mp ho] at hk
      simp [defaultErrObj] at hk
  | succ fuel ihf =>
      intro h r n hn hf
      cases hro : h[r]? with
      | none =>
          have heq : deepcopyE (fuel + 1) h r = (h ++ [defaultErrObj], h.length) := by
            simp only [deepcopyE, hro]
          rw [heq]
          refine ⟨⟨[defaultErrObj], rfl⟩, ?_, by simpa using hn⟩
          refine freshFrom_append n h [defaultErrObj] hf ?_
          intro o ho k hk
          rw [List.mem_singleton.mp ho] at hk
          simp [defaultErrObj] at hk
      | some o =>
          have heq : deepcopyE (fuel + 1) h r =
              ((copyKidsFold (deepcopyE fuel) (h, []) o.kids).1
                  ++ [setObjKids o (copyKidsFold (deepcopyE fuel) (h, []) o.kids).2],
                (copyKidsFold (deepcopyE fuel) (h, []) o.kids).1.length) := by
            simp only [deepcopyE, hro]
          rw [heq]
          obtain ⟨⟨ext1, hext1⟩, hf1, hks⟩ :=
            copyKidsFold_spec (deepcopyE fuel) n
              (fun h2 r2 ha hb => ihf h2 r2 n ha hb) o.kids (h, []) hn hf
              (by intro kk hkk; cases hkk)
          refine ⟨⟨ext1 ++ [setObjKids o (copyKidsFold (deepcopyE fuel) (h, []) o.kids).2], ?_⟩,
            ?_, ?_⟩
          · show (copyKidsFold (deepcopyE fuel) (h, []) o.kids).1 ++ _ = _
            rw [hext1, List.append_assoc]
          · refine freshFrom_append n _ _ hf1 ?_
            intro o2 ho2 k hk
            rw [List.mem_singleton.mp ho2] at hk
            exact hks k hk
          · show n ≤ (copyKidsFold (deepcopyE fuel) (h, []) o.kids).1.length
            rw [hext1]
            show n ≤ (h ++ ext1).length
            rw [List.length_append]
            omega

theorem rewriteKidsH_nil (recur : List ErrObj → Nat → List ErrObj × Option PyExc)
    (mkDp : ErrObj → List Seg) (h : List ErrObj) :
    rewriteKidsH recur mkDp h [] = (h, Option.none) := rfl

theorem rewriteKidsH_frame (recur : List ErrObj → Nat → List ErrObj × Option PyExc)
    (mkDp : ErrObj → List Seg) (n : Nat)
    (hrec : ∀ (h : List ErrObj) (k : Nat), n ≤ k → FreshFrom n h →
      (∀ i, i < n → ((recur h k).1)[i]? = h[i]?) ∧ FreshFrom n (recur h k).1) :
    ∀ (ks : List Nat) (h : List ErrObj), FreshFrom n h → (∀ k ∈ ks, n ≤ k) →
      (∀ i, i < n → ((rewriteKidsH recur mkDp h ks).1)[i]? = h[i]?)
        ∧ FreshFrom n (rewriteKidsH recur mkDp h ks).1 := by
  intro ks
  induction ks with
  | nil =>
      intro h hf _
      exact ⟨fun i _ => rfl, hf⟩
  | cons k ks ihk =>
      intro h hf hks
      have hkn : n ≤ k := hks k (List.mem_cons_self k ks)
      cases hko : h[k]? with
      | none =>
          simp only [rewriteKidsH, hko]
          exact ⟨fun i _ => by trivial, hf⟩
      | some ko =>
          have hframe1 : ∀ i, i < n → (h.set k (setObjDp ko (mkDp ko)))[i]? = h[i]? := by
            intro i hi
            exact List.getElem?_set_ne (by omega)
          have hfresh1 : FreshFrom n (h.set k (setObjDp ko (mkDp ko))) := by
            intro i o2 hi hget kk hkk
            by_cases hik : i = k
            · subst hik
              have hilen : i < h.length := by
                by_contra hc
                rw [List.getElem?_eq_none (by omega)] at hko
                cases hko
              rw [List.getElem?_set_self hilen] at hget
              have : o2.kids = ko.kids := by
                rw [← Option.some.inj hget]
                rfl
              rw [this] at hkk
              exact hf i ko hi hko kk hkk
            · rw [List.getElem?_set_ne (fun hc => hik hc.symm)] at hget
              exact hf i o2 hi hget kk hkk
          obtain ⟨hframe2, hfresh2⟩ := hrec (h.set k (setObjDp ko (mkDp ko))) k hkn hfresh1
          simp only [rewriteKidsH, hko]
          cases hres : recur (h.set k (setObjDp ko (mkDp ko))) k with
          | mk h2 oe =>
              rw [hres] at hframe2 hfresh2
              cases oe with
              | some ex =>
                  refine ⟨fun i hi => ?_, hfresh2⟩
                  rw [hframe2 i hi]
                  exact hframe1 i hi
              | none =>
                  obtain ⟨hframe3, hfresh3⟩ := ihk h2 hfresh2
                    (fun kk hkk => hks kk (List.mem_cons_of_mem k hkk))
                  refine ⟨fun i hi => ?_, hfresh3⟩
                  rw [hframe3 i hi]
                  have hmid : h2[i]? = (h.set k (setObjDp ko (mkDp ko)))[i]? := hframe2 i hi
                  rw [hmid]
                  exact hframe1 i hi

theorem rewriteErrH_frame (n : Nat) :
    ∀ (fuel off : Nat) (h : List ErrObj) (r : Nat), n ≤ r → FreshFrom n h →
      (∀ i, i < n → ((rewriteErrH fuel off h r).1)[i]? = h[i]?)
        ∧ FreshFrom n (rewriteErrH fuel off h r).1 := by
  intro fuel
  induction fuel with
  | zero =>
      intro off h r _ hf
      exact ⟨fun i _ => rfl, hf⟩
  | succ fuel ihf =>
      intro off h r hr hf
      cases hro : h[r]? with
      | none =>
          simp only [rewriteErrH, hro]
          exact ⟨fun i _ => by trivial, hf⟩
      | some o =>
          have hkids : ∀ k ∈ o.kids, n ≤ k := hf r o hr hro
          simp only [rewriteErrH, hro]
          by_cases hlog : (o.code &&& (LOGICAL.code - ERROR_GROUP.code) != 0) = true
          · rw [if_pos hlog]
            cases hchk : checkLogicIdx h o.sp.length o.kids with
            | some ex =>
                simp only [hchk]
                exact ⟨fun i _ => by trivial, hf⟩
            | none =>
                simp only [hchk]
                exact rewriteKidsH_frame _ _ n
                  (fun h2 k hk hf2 => ihf (off + 1) h2 k hk hf2) o.kids h hf hkids
          · rw [if_neg hlog]
            by_cases hgrp : (o.code &&& ERROR_GROUP.code != 0) = true
            · rw [if_pos hgrp]
              exact rewriteKidsH_frame _ _ n
                (fun h2 k hk hf2 => ihf off h2 k hk hf2) o.kids h hf hkids
            · rw [if_neg hgrp]
              exact ⟨fun i _ => rfl, hf⟩

/-- C6: the complete effect of `add` on the error heap — deep-copying the
incoming error and rewriting the copy's paths — leaves every pre-existing heap
cell (the caller-owned error with its paths and every nested child error)
unchanged: all rewriting happens on the appended copy only. -/
theorem claim_C6_no_mutation (fuel : Nat) (h : List ErrObj) (r i : Nat)
    (hi : i < h.length) : (addHeapStage fuel h r)[i]? = h[i]? := by
  obtain ⟨⟨ext, hext⟩, hfresh, href⟩ :=
    deepcopyE_spec fuel h r h.length (le_refl _) (freshFrom_of_length h.length h (le_refl _))
  have hframe := (rewriteErrH_frame h.length fuel 0 (deepcopyE fuel h r).1
    (deepcopyE fuel h r).2 href hfresh).1 i hi
  show ((rewriteErrH fuel 0 (deepcopyE fuel h r).1 (deepcopyE fuel h r).2).1)[i]? = h[i]?
  rw [hframe, hext]
  exact List.getElem?_append_left hi

/-- Witness for C6: both cells of the concrete two-object heap [[heap6]] are
unchanged after the copy-and-rewrite stage of `add`. -/
theorem claim_C6_no_mutation_witness :
    ((0 : Nat) < heap6.length ∧ (1 : Nat) < heap6.length) ∧
    ((addHeapStage 3 heap6 0)[0]? = heap6[0]? ∧ (addHeapStage 3 heap6 0)[1]? = heap6[1]?) :=
  ⟨⟨by decide, by decide⟩,
    ⟨claim_C6_no_mutation 3 heap6 0 0 (by decide), claim_C6_no_mutation 3 heap6 0 1 (by decide)⟩⟩

end Cerberus
